import Mathlib

/-!
# Verification of the coredns-s3dumper logging pipeline

Shallow embedding of the s3dumper CoreDNS plugin: the shared `LogBuffer`
(buffer.go), the channel/worker-pool pipeline (`ServeDNS`, `worker`, `Init`),
the setup defaults (`parseConfig`, setup.go), and the artifact-key generators
(`generateS3Key`, `generateFilename` in uploader.go / uploader_local.go).

Log records are opaque to every pipeline operation, so the embedding is
parametric in the record type `α`. Go `int` counters that are provably
non-negative in every reachable state (queue lengths, batch sizes fixed by
`Init`) are modelled as `Nat`; `strconv.Atoi` results, which can be negative,
are modelled as `Int`.
-/

section BufferModel

variable {α : Type*}

/-- `LogBuffer` (buffer.go): the accumulated entries and the configured
`maxSize` threshold. The Go `sync.Mutex` only serialises access and has no
sequential content. `maxSize` is a Go `int`; `NewLogBuffer` panics on a
negative capacity (`make` with negative cap), so reachable buffers have a
non-negative `maxSize`, modelled as `Nat`. -/
structure LogBuffer (α : Type*) where
  entries : List α
  maxSize : Nat
deriving DecidableEq

/-- `NewLogBuffer` (buffer.go line 14): empty entry list. -/
def NewLogBuffer (maxSize : Nat) : LogBuffer α :=
  { entries := [], maxSize := maxSize }

namespace LogBuffer

/-- `resetAndReturn` (buffer.go line 44): returns `nil` (here `none`) on an
empty buffer, otherwise hands back all entries and clears the buffer. -/
def resetAndReturn (b : LogBuffer α) : LogBuffer α × Option (List α) :=
  if b.entries.length = 0 then (b, none)
  else ({ b with entries := [] }, some b.entries)

/-- `Add` (buffer.go line 23): append the entry, then if
`len(b.entries) >= b.maxSize` return the batch via `resetAndReturn`,
else return `nil`. -/
def Add (b : LogBuffer α) (e : α) : LogBuffer α × Option (List α) :=
  let b' : LogBuffer α := { b with entries := b.entries ++ [e] }
  if b.maxSize ≤ b'.entries.length then b'.resetAndReturn
  else (b', none)

/-- `Flush` (buffer.go line 35). -/
def Flush (b : LogBuffer α) : LogBuffer α × Option (List α) :=
  b.resetAndReturn

end LogBuffer

/-- A client-visible operation on the shared buffer: `ServeDNS` calls `Add`,
the ticker and `Shutdown` call `Flush`. -/
inductive BufOp (α : Type*) where
  | addOp (e : α)
  | flushOp

/-- Run a sequence of buffer operations, collecting every batch handed to the
uploader (a returned non-`nil` slice) in order. -/
def runBufOps : LogBuffer α → List (BufOp α) → LogBuffer α × List (List α)
  | b, [] => (b, [])
  | b, BufOp.addOp e :: ops =>
      let r := b.Add e
      let rest := runBufOps r.1 ops
      (rest.1, r.2.toList ++ rest.2)
  | b, BufOp.flushOp :: ops =>
      let r := b.Flush
      let rest := runBufOps r.1 ops
      (rest.1, r.2.toList ++ rest.2)

/-- The records inserted by a sequence of buffer operations, in order. -/
def insertedOf : List (BufOp α) → List α :=
  List.filterMap fun op => match op with
    | BufOp.addOp e => some e
    | BufOp.flushOp => none

end BufferModel

section WorkerModel

variable {α : Type*}

/-- A wake-up of the `worker` loop (part_000 lines 135-160) while running:
either a record is drawn from the queue or the flush ticker fires. -/
inductive WorkerEvent (α : Type*) where
  | recv (e : α)
  | tick

/-- An observable action of a worker: a batch handed to `Uploader.Upload`
(the `flush` closure, part_000 lines 117-133) or termination (`return`). -/
inductive WorkerObs (α : Type*) where
  | flushed (b : List α)
  | stopped
deriving DecidableEq

/-- The worker's `flush` closure: a no-op on an empty batch, otherwise the
batch is copied, handed to the uploader, and the local batch is reset. -/
def flushObs (batch : List α) : List α × List (WorkerObs α) :=
  if batch.length = 0 then (batch, [])
  else ([], [WorkerObs.flushed batch])

/-- Receiving one record (part_000 lines 151-155): append to the local batch,
then flush if `len(batch) >= s.batchSize`. -/
def recvObs (B : Nat) (batch : List α) (e : α) : List α × List (WorkerObs α) :=
  let batch' := batch ++ [e]
  if B ≤ batch'.length then flushObs batch'
  else (batch', [])

/-- The worker's main loop (part_000 lines 135-158) over a sequence of
wake-ups, threading the local batch and collecting observations. -/
def runEvents (B : Nat) : List α → List (WorkerEvent α) → List α × List (WorkerObs α)
  | batch, [] => (batch, [])
  | batch, WorkerEvent.recv e :: evs =>
      let r := recvObs B batch e
      let rest := runEvents B r.1 evs
      (rest.1, r.2 ++ rest.2)
  | batch, WorkerEvent.tick :: evs =>
      let r := flushObs batch
      let rest := runEvents B r.1 evs
      (rest.1, r.2 ++ rest.2)

/-- The shutdown drain (part_000 lines 137-150): consume the remaining queue
non-blockingly, flushing at each size-trigger crossing; when the queue is
empty perform one final flush and `return` (observed as `stopped`). -/
def drainTrace (B : Nat) : List α → List α → List (WorkerObs α)
  | batch, [] => (flushObs batch).2 ++ [WorkerObs.stopped]
  | batch, e :: rest =>
      (recvObs B batch e).2 ++ drainTrace B (recvObs B batch e).1 rest

/-- A complete worker execution: run from an empty batch over the wake-ups
`evs`, then receive the shutdown signal with `rest` still queued. -/
def workerRun (B : Nat) (evs : List (WorkerEvent α)) (rest : List α) :
    List (WorkerObs α) :=
  let r := runEvents B [] evs
  r.2 ++ drainTrace B r.1 rest

/-- The records delivered to the worker by a wake-up sequence, in order. -/
def delivered : List (WorkerEvent α) → List α :=
  List.filterMap fun ev => match ev with
    | WorkerEvent.recv e => some e
    | WorkerEvent.tick => none

/-- All records inside batches handed to the uploader along a trace. -/
def flushedRecords (tr : List (WorkerObs α)) : List α :=
  (tr.filterMap fun ob => match ob with
    | WorkerObs.flushed b => some b
    | WorkerObs.stopped => none).flatten

end WorkerModel

section PipelineModel

variable {α : Type*}

/-- The channel-design plugin state visible to `ServeDNS` (part_000): the
resident queue contents, the channel capacity, the shedding threshold
percentage, and whether `close(s.stop)` has been issued. -/
structure PipelineState (α : Type*) where
  queue : List α
  qcap : Nat
  dropThresh : Nat
  stopped : Bool
deriving DecidableEq

/-- The enqueue attempt of `ServeDNS` (part_000 lines 91-105): sample
`qlen = len(s.queue)`; if `cap > 0 && qlen*100 >= cap*dropThresh` shed the
record; otherwise a non-blocking channel send that drops when full. Returns
the new state and whether the record was accepted. -/
def serveDNSEnqueue (s : PipelineState α) (e : α) : PipelineState α × Bool :=
  let qlen := s.queue.length
  if 0 < s.qcap ∧ s.qcap * s.dropThresh ≤ qlen * 100 then (s, false)
  else if qlen < s.qcap then ({ s with queue := s.queue ++ [e] }, true)
  else (s, false)

/-- `Shutdown` / `OnShutdown` signal the workers via `close(s.stop)`; on the
state visible to `ServeDNS` this only flips the stop flag. -/
def shutdownSignal (s : PipelineState α) : PipelineState α :=
  { s with stopped := true }

/-- Concurrent activity on the queue: producer enqueue attempts and worker
draws (a draw removes the oldest resident record, if any). -/
inductive QueueOp (α : Type*) where
  | enq (e : α)
  | deq

/-- Interleaved queue activity applied to a pipeline state. -/
def applyQueueOps : PipelineState α → List (QueueOp α) → PipelineState α
  | s, [] => s
  | s, QueueOp.enq e :: ops => applyQueueOps (serveDNSEnqueue s e).1 ops
  | s, QueueOp.deq :: ops => applyQueueOps { s with queue := s.queue.tail } ops

/-- A burst of enqueue attempts with no consumer activity, collecting each
attempt's accepted/rejected outcome in order. -/
def enqAll : PipelineState α → List α → PipelineState α × List Bool
  | s, [] => (s, [])
  | s, e :: es =>
      let r := serveDNSEnqueue s e
      let rest := enqAll r.1 es
      (rest.1, r.2 :: rest.2)

/-- `ServeDNS` of the channel design (part_000 lines 68-109): the value pair
returned by `plugin.NextOrFailure` is handed back unchanged on every path
(shed, dropped-full, enqueued, or no-question). -/
def serveDNS {ρ : Type*} (nextResult : ρ) (hasQuestion : Bool) (entry : α)
    (s : PipelineState α) : ρ × PipelineState α :=
  if hasQuestion then
    let r := serveDNSEnqueue s entry
    (nextResult, r.1)
  else (nextResult, s)

/-- The shared-buffer plugin state (s3dumper.go): the `LogBuffer` plus the
batches handed to `Uploader.Upload` so far. -/
structure BufPipeline (α : Type*) where
  buffer : LogBuffer α
  uploaded : List (List α)

/-- `ServeDNS` of the shared-buffer design (s3dumper.go lines 38-64):
`Buffer.Add`, an asynchronous upload when a batch comes back, and the
`(status, err)` pair from the next plugin returned unchanged. -/
def serveDNSBuf {ρ : Type*} (nextResult : ρ) (hasQuestion : Bool) (entry : α)
    (p : BufPipeline α) : ρ × BufPipeline α :=
  if hasQuestion then
    let r := p.buffer.Add entry
    match r.2 with
    | some toFlush => (nextResult, { buffer := r.1, uploaded := p.uploaded ++ [toFlush] })
    | none => (nextResult, { buffer := r.1, uploaded := p.uploaded })
  else (nextResult, p)

end PipelineModel

section ConfigModel

/-- One second in nanoseconds (`time.Second`). -/
def secondNs : Nat := 1000000000

/-- The tunable fields of the channel-design `S3Dumper` struct filled in by
`Init` (part_000 lines 40-61). Durations are in nanoseconds
(`time.Duration`); `queueCap = 0` models a nil queue channel. -/
structure WorkerPoolConfig where
  workers : Nat
  batchSize : Nat
  flushEveryNs : Nat
  dropThresh : Nat
  queueCap : Nat
deriving DecidableEq

/-- `Init` (part_000 lines 40-61): each zero-valued tunable is replaced by
its default — 4 workers, batch size 1000, flush every `5 * time.Second`,
shed at 90%, queue capacity 50_000. -/
def S3DumperInit (c : WorkerPoolConfig) : WorkerPoolConfig :=
  { workers := if c.workers = 0 then 4 else c.workers
    batchSize := if c.batchSize = 0 then 1000 else c.batchSize
    flushEveryNs := if c.flushEveryNs = 0 then 5 * secondNs else c.flushEveryNs
    dropThresh := if c.dropThresh = 0 then 90 else c.dropThresh
    queueCap := if c.queueCap = 0 then 50000 else c.queueCap }

/-- `defaultBatchSize` (setup.go line 321). -/
def defaultBatchSize : Int := 1000

/-- `defaultFlushInterval` (setup.go line 322): `30 * time.Second`. -/
def defaultFlushIntervalNs : Nat := 30 * secondNs

/-- Digit-string accumulator of `strconv.Atoi`: `none` on any non-digit. -/
def parseDigits : List Char → Nat → Option Nat
  | [], acc => some acc
  | c :: cs, acc =>
      if c.isDigit then parseDigits cs (10 * acc + (c.toNat - 48))
      else none

/-- `strconv.Atoi` (Go stdlib, as called by `parseConfig`): an optional sign
followed by a non-empty digit string; anything else is a syntax error. The
64-bit range error is not modelled — the claims only concern small values. -/
def goAtoi (s : String) : Except String Int :=
  match s.data with
  | [] => Except.error "invalid syntax"
  | '+' :: cs =>
      if cs = [] then Except.error "invalid syntax"
      else match parseDigits cs 0 with
        | some n => Except.ok (Int.ofNat n)
        | none => Except.error "invalid syntax"
  | '-' :: cs =>
      if cs = [] then Except.error "invalid syntax"
      else match parseDigits cs 0 with
        | some n => Except.ok (-(Int.ofNat n))
        | none => Except.error "invalid syntax"
  | cs =>
      match parseDigits cs 0 with
      | some n => Except.ok (Int.ofNat n)
      | none => Except.error "invalid syntax"

/-- The batching tunables produced by `parseConfig` (setup.go). -/
structure ParsedTunables where
  batchSize : Int
  flushIntervalNs : Nat
deriving DecidableEq

/-- The `batch_size` / `flush_interval` handling of `parseConfig` (setup.go
lines 348-381): defaults when the directive is absent; `batch_size` goes
through `strconv.Atoi` and its parse result is assigned with no further
validation. `flush_interval` goes through `time.ParseDuration` (external
stdlib), modelled as an already-parsed duration in nanoseconds. -/
def parseTunables (batchArg : Option String) (flushArg : Option Nat) :
    Except String ParsedTunables :=
  let fi := match flushArg with
    | none => defaultFlushIntervalNs
    | some d => d
  match batchArg with
  | none => Except.ok { batchSize := defaultBatchSize, flushIntervalNs := fi }
  | some a =>
      match goAtoi a with
      | Except.error m => Except.error ("invalid batch_size: " ++ m)
      | Except.ok v => Except.ok { batchSize := v, flushIntervalNs := fi }

end ConfigModel

section KeyModel

/-- Join non-empty path elements with a slash. This models Go's
`path.Join` on the already-clean, slash-free components produced by
`generateS3Key` (a configured key prefix and `time.Format` outputs), where
the final `path.Clean` is the identity. -/
def joinClean : List String → String
  | [] => ""
  | [x] => x
  | x :: y :: rest => x ++ "/" ++ joinClean (y :: rest)

/-- `path.Join` as used by `generateS3Key`: empty elements are skipped. -/
def goPathJoin (elems : List String) : String :=
  joinClean (elems.filter fun e => !(e == ""))

/-- The inputs of `generateS3Key` (uploader.go lines 76-88): the configured
prefix, the `time.Format` year/month/day of `now`, `now.UnixNano()`, and the
freshly drawn random UUID rendered as a string. -/
structure S3KeyInputs where
  prefixDir : String
  year : String
  month : String
  day : String
  unixNano : Nat
  uuidStr : String
deriving DecidableEq

/-- `generateS3Key` (uploader.go lines 76-88):
`path.Join(prefix, year, month, day, fmt.Sprintf("%d-%s.parquet", nano, uuid))`. -/
def generateS3Key (k : S3KeyInputs) : String :=
  goPathJoin [k.prefixDir, k.year, k.month, k.day,
    toString k.unixNano ++ "-" ++ k.uuidStr ++ ".parquet"]

/-- `LocalUploader.generateFilename` (uploader_local.go lines 192-196):
`fmt.Sprintf("%d-%s.json.gz", now.UnixNano(), uuid)`. -/
def generateFilename (unixNano : Nat) (uuidStr : String) : String :=
  toString unixNano ++ "-" ++ uuidStr ++ ".json.gz"

end KeyModel

/-! ## Buffer lemmas -/

section BufferLemmas

variable {α : Type*}

theorem LogBuffer.add_eq_flush (b : LogBuffer α) (e : α)
    (h : b.maxSize ≤ b.entries.length + 1) :
    b.Add e = ({ b with entries := [] }, some (b.entries ++ [e])) := by
  simp [LogBuffer.Add, LogBuffer.resetAndReturn, h]

theorem LogBuffer.add_eq_keep (b : LogBuffer α) (e : α)
    (h : b.entries.length + 1 < b.maxSize) :
    b.Add e = ({ b with entries := b.entries ++ [e] }, none) := by
  have h' : ¬ b.maxSize ≤ b.entries.length + 1 := by omega
  simp [LogBuffer.Add, h']

theorem LogBuffer.add_none_iff (b : LogBuffer α) (e : α) :
    (b.Add e).2 = none ↔ b.entries.length + 1 < b.maxSize := by
  by_cases h : b.maxSize ≤ b.entries.length + 1
  · rw [LogBuffer.add_eq_flush b e h]
    simp
    omega
  · rw [LogBuffer.add_eq_keep b e (by omega)]
    simp
    omega

theorem LogBuffer.add_conserve (b : LogBuffer α) (e : α) :
    ((b.Add e).2.getD []) ++ (b.Add e).1.entries = b.entries ++ [e] := by
  by_cases h : b.maxSize ≤ b.entries.length + 1
  · rw [LogBuffer.add_eq_flush b e h]
    simp
  · rw [LogBuffer.add_eq_keep b e (by omega)]
    simp

theorem LogBuffer.add_maxSize (b : LogBuffer α) (e : α) :
    (b.Add e).1.maxSize = b.maxSize := by
  by_cases h : b.maxSize ≤ b.entries.length + 1
  · rw [LogBuffer.add_eq_flush b e h]
  · rw [LogBuffer.add_eq_keep b e (by omega)]

theorem LogBuffer.flush_entries (b : LogBuffer α) : (b.Flush).1.entries = [] := by
  by_cases h : b.entries.length = 0
  · have : b.entries = [] := List.length_eq_zero.mp h
    simp [LogBuffer.Flush, LogBuffer.resetAndReturn, h, this]
  · simp [LogBuffer.Flush, LogBuffer.resetAndReturn, h]

theorem LogBuffer.flush_maxSize (b : LogBuffer α) : (b.Flush).1.maxSize = b.maxSize := by
  by_cases h : b.entries.length = 0 <;>
    simp [LogBuffer.Flush, LogBuffer.resetAndReturn, h]

theorem LogBuffer.flush_getD (b : LogBuffer α) : ((b.Flush).2.getD []) = b.entries := by
  by_cases h : b.entries.length = 0
  · have : b.entries = [] := List.length_eq_zero.mp h
    simp [LogBuffer.Flush, LogBuffer.resetAndReturn, h, this]
  · simp [LogBuffer.Flush, LogBuffer.resetAndReturn, h]

theorem LogBuffer.flush_tolist_len (b : LogBuffer α) :
    ∀ bt ∈ (b.Flush).2.toList, bt.length ≤ b.entries.length := by
  by_cases h : b.entries.length = 0 <;>
    simp [LogBuffer.Flush, LogBuffer.resetAndReturn, h]

theorem Option.toList_flatten (o : Option (List α)) :
    (o.toList).flatten = o.getD [] := by
  cases o <;> simp

theorem runBufOps_maxSize : ∀ (ops : List (BufOp α)) (b : LogBuffer α),
    (runBufOps b ops).1.maxSize = b.maxSize := by
  intro ops
  induction ops with
  | nil => intro b; rfl
  | cons op ops ih =>
    intro b
    cases op with
    | addOp e => simpa [runBufOps, LogBuffer.add_maxSize] using ih (b.Add e).1
    | flushOp => simpa [runBufOps, LogBuffer.flush_maxSize] using ih (b.Flush).1

theorem runBufOps_entries_lt : ∀ (ops : List (BufOp α)) (b : LogBuffer α),
    1 ≤ b.maxSize → b.entries.length < b.maxSize →
    (runBufOps b ops).1.entries.length < b.maxSize := by
  intro ops
  induction ops with
  | nil => intro b _ h; exact h
  | cons op ops ih =>
    intro b hm h
    cases op with
    | addOp e =>
      have hrec := ih (b.Add e).1
      rw [LogBuffer.add_maxSize] at hrec
      by_cases hc : b.maxSize ≤ b.entries.length + 1
      · simp only [runBufOps]
        refine hrec hm ?_
        rw [LogBuffer.add_eq_flush b e hc]
        simpa using hm
      · simp only [runBufOps]
        refine hrec hm ?_
        rw [LogBuffer.add_eq_keep b e (by omega)]
        simpa using (by omega : b.entries.length + 1 < b.maxSize)
    | flushOp =>
      have hrec := ih (b.Flush).1
      rw [LogBuffer.flush_maxSize] at hrec
      simp only [runBufOps]
      refine hrec hm ?_
      rw [LogBuffer.flush_entries]
      simpa using hm

theorem runBufOps_out_le : ∀ (ops : List (BufOp α)) (b : LogBuffer α),
    1 ≤ b.maxSize → b.entries.length < b.maxSize →
    ∀ bt ∈ (runBufOps b ops).2, bt.length ≤ b.maxSize := by
  intro ops
  induction ops with
  | nil => intro b _ _ bt hbt; simp [runBufOps] at hbt
  | cons op ops ih =>
    intro b hm h bt hbt
    cases op with
    | addOp e =>
      simp only [runBufOps, List.mem_append] at hbt
      rcases hbt with hbt | hbt
      · by_cases hc : b.maxSize ≤ b.entries.length + 1
        · rw [LogBuffer.add_eq_flush b e hc] at hbt
          simp at hbt
          subst hbt
          simp only [List.length_append, List.length_singleton]
          omega
        · rw [LogBuffer.add_eq_keep b e (by omega)] at hbt
          simp at hbt
      · have hrec := ih (b.Add e).1
        rw [LogBuffer.add_maxSize] at hrec
        by_cases hc : b.maxSize ≤ b.entries.length + 1
        · refine hrec hm ?_ bt hbt
          rw [LogBuffer.add_eq_flush b e hc]
          simpa using hm
        · refine hrec hm ?_ bt hbt
          rw [LogBuffer.add_eq_keep b e (by omega)]
          simpa using (by omega : b.entries.length + 1 < b.maxSize)
    | flushOp =>
      simp only [runBufOps, List.mem_append] at hbt
      rcases hbt with hbt | hbt
      · have := LogBuffer.flush_tolist_len b bt hbt
        omega
      · have hrec := ih (b.Flush).1
        rw [LogBuffer.flush_maxSize] at hrec
        refine hrec hm ?_ bt hbt
        rw [LogBuffer.flush_entries]
        simpa using hm

theorem runBufOps_conserve : ∀ (ops : List (BufOp α)) (b : LogBuffer α),
    ((runBufOps b ops).2).flatten ++ (runBufOps b ops).1.entries
      = b.entries ++ insertedOf ops := by
  intro ops
  induction ops with
  | nil => intro b; simp [runBufOps, insertedOf]
  | cons op ops ih =>
    intro b
    cases op with
    | addOp e =>
      simp only [runBufOps, List.flatten_append, Option.toList_flatten,
        List.append_assoc, ih (b.Add e).1]
      rw [← List.append_assoc, LogBuffer.add_conserve]
      simp [insertedOf]
    | flushOp =>
      simp only [runBufOps, List.flatten_append, Option.toList_flatten,
        List.append_assoc, ih (b.Flush).1]
      rw [← List.append_assoc, LogBuffer.flush_getD, LogBuffer.flush_entries]
      simp [insertedOf]

theorem runBufOps_append : ∀ (l1 l2 : List (BufOp α)) (b : LogBuffer α),
    runBufOps b (l1 ++ l2)
      = ((runBufOps (runBufOps b l1).1 l2).1,
         (runBufOps b l1).2 ++ (runBufOps (runBufOps b l1).1 l2).2) := by
  intro l1
  induction l1 with
  | nil => intro l2 b; simp [runBufOps]
  | cons op l1 ih =>
    intro l2 b
    cases op with
    | addOp e => simp [runBufOps, ih]
    | flushOp => simp [runBufOps, ih]

theorem insertedOf_map_add (xs : List α) :
    insertedOf (xs.map BufOp.addOp) = xs := by
  induction xs with
  | nil => rfl
  | cons x xs ih => simpa [insertedOf] using ih

theorem bufRun_total (m : Nat) (xs : List α) :
    ((runBufOps (NewLogBuffer m) (xs.map BufOp.addOp ++ [BufOp.flushOp])).2).flatten
      = xs := by
  have hc := runBufOps_conserve (xs.map BufOp.addOp ++ [BufOp.flushOp])
    (NewLogBuffer m : LogBuffer α)
  have ha := runBufOps_append (xs.map BufOp.addOp) [BufOp.flushOp]
    (NewLogBuffer m : LogBuffer α)
  have hend : (runBufOps (NewLogBuffer m : LogBuffer α)
      (xs.map BufOp.addOp ++ [BufOp.flushOp])).1.entries = [] := by
    rw [ha]
    simp [runBufOps, LogBuffer.flush_entries]
  rw [hend, List.append_nil] at hc
  rw [hc]
  have : insertedOf ((xs.map BufOp.addOp : List (BufOp α)) ++ [BufOp.flushOp])
      = xs := by
    simp [insertedOf, List.filterMap_append]
    have h2 := insertedOf_map_add xs
    simpa [insertedOf] using h2
  simp [NewLogBuffer, this]

end BufferLemmas

/-! ## Worker lemmas -/

section WorkerLemmas

variable {α : Type*}

theorem flushObs_fst (batch : List α) : (flushObs batch).1 = [] := by
  by_cases h : batch.length = 0
  · have : batch = [] := List.length_eq_zero.mp h
    simp [flushObs, h, this]
  · simp [flushObs, h]

theorem flushedRecords_append (a b : List (WorkerObs α)) :
    flushedRecords (a ++ b) = flushedRecords a ++ flushedRecords b := by
  simp [flushedRecords, List.filterMap_append]

theorem flushedRecords_stop :
    flushedRecords ([WorkerObs.stopped] : List (WorkerObs α)) = [] := rfl

theorem flushObs_records (batch : List α) :
    flushedRecords (flushObs batch).2 = batch := by
  by_cases h : batch.length = 0
  · have : batch = [] := List.length_eq_zero.mp h
    simp [flushObs, h, this, flushedRecords]
  · simp [flushObs, h, flushedRecords]

theorem recvObs_records (B : Nat) (batch : List α) (e : α) :
    flushedRecords (recvObs B batch e).2 ++ (recvObs B batch e).1 = batch ++ [e] := by
  by_cases h : B ≤ (batch ++ [e]).length
  · simp only [recvObs, if_pos h, flushObs_fst, flushObs_records, List.append_nil]
  · simp only [recvObs, if_neg h]
    simp [flushedRecords]

theorem runEvents_records : ∀ (evs : List (WorkerEvent α)) (B : Nat) (batch : List α),
    flushedRecords (runEvents B batch evs).2 ++ (runEvents B batch evs).1
      = batch ++ delivered evs := by
  intro evs
  induction evs with
  | nil => intro B batch; simp [runEvents, delivered, flushedRecords]
  | cons ev evs ih =>
    intro B batch
    cases ev with
    | recv e =>
      simp only [runEvents, flushedRecords_append, List.append_assoc]
      rw [ih B (recvObs B batch e).1]
      rw [← List.append_assoc, recvObs_records]
      simp [delivered]
    | tick =>
      simp only [runEvents, flushedRecords_append, List.append_assoc]
      rw [ih B (flushObs batch).1]
      rw [← List.append_assoc]
      have : flushedRecords (flushObs batch).2 ++ (flushObs batch).1 = batch := by
        rw [flushObs_fst, flushObs_records, List.append_nil]
      rw [this]
      simp [delivered]

theorem drainTrace_records : ∀ (q : List α) (B : Nat) (batch : List α),
    flushedRecords (drainTrace B batch q) = batch ++ q := by
  intro q
  induction q with
  | nil =>
    intro B batch
    simp only [drainTrace, flushedRecords_append, flushedRecords_stop,
      flushObs_records, List.append_nil]
  | cons e rest ih =>
    intro B batch
    simp only [drainTrace, flushedRecords_append]
    rw [ih B (recvObs B batch e).1, ← List.append_assoc, recvObs_records]
    simp

theorem stopped_notin_flushObs (batch : List α) :
    WorkerObs.stopped ∉ (flushObs batch).2 := by
  by_cases h : batch.length = 0 <;> simp [flushObs, h]

theorem stopped_notin_recvObs (B : Nat) (batch : List α) (e : α) :
    WorkerObs.stopped ∉ (recvObs B batch e).2 := by
  by_cases h : B ≤ (batch ++ [e]).length
  · simp only [recvObs, if_pos h]
    exact stopped_notin_flushObs (batch ++ [e])
  · have h' : ¬ B ≤ batch.length + 1 := by simpa using h
    simp [recvObs, h']

theorem drainTrace_last : ∀ (q : List α) (B : Nat) (batch : List α),
    ∃ pre, drainTrace B batch q = pre ++ [WorkerObs.stopped] ∧
      WorkerObs.stopped ∉ pre := by
  intro q
  induction q with
  | nil =>
    intro B batch
    exact ⟨(flushObs batch).2, rfl, stopped_notin_flushObs batch⟩
  | cons e rest ih =>
    intro B batch
    obtain ⟨pre, hpre, hmem⟩ := ih B (recvObs B batch e).1
    refine ⟨(recvObs B batch e).2 ++ pre, ?_, ?_⟩
    · simp [drainTrace, hpre]
    · intro hc
      rcases List.mem_append.mp hc with hc | hc
      · exact stopped_notin_recvObs B batch e hc
      · exact hmem hc

theorem drainTrace_small : ∀ (q batch : List α) (B : Nat),
    batch.length + q.length < B →
    drainTrace B batch q = (flushObs (batch ++ q)).2 ++ [WorkerObs.stopped] := by
  intro q
  induction q with
  | nil => intro batch B _; simp [drainTrace]
  | cons e rest ih =>
    intro batch B h
    have hlen : (e :: rest).length = rest.length + 1 := by simp
    have hc : ¬ B ≤ (batch ++ [e]).length := by
      simp only [List.length_append, List.length_singleton]
      rw [hlen] at h
      omega
    have hc' : ¬ B ≤ batch.length + 1 := by simpa using hc
    have hr : recvObs B batch e = (batch ++ [e], []) := by
      simp [recvObs, hc']
    simp only [drainTrace, hr, List.nil_append]
    rw [ih (batch ++ [e]) B (by simp at h ⊢; omega)]
    congr 2
    simp

theorem recvObs_inv (B : Nat) (batch : List α) (e : α) (hB : 1 ≤ B)
    (h : batch.length < B) :
    (recvObs B batch e).1.length < B ∧
      ∀ bt, WorkerObs.flushed bt ∈ (recvObs B batch e).2 → bt.length ≤ B := by
  by_cases hc : B ≤ (batch ++ [e]).length
  · constructor
    · simp only [recvObs, if_pos hc, flushObs_fst]
      simpa using hB
    · intro bt hbt
      simp only [recvObs, if_pos hc] at hbt
      have hne : ¬ (batch ++ [e]).length = 0 := by simp
      simp only [flushObs, if_neg hne, List.mem_singleton] at hbt
      cases hbt
      simp only [List.length_append, List.length_singleton]
      omega
  · constructor
    · simp only [recvObs, if_neg hc]
      simp only [List.length_append, List.length_singleton] at hc ⊢
      omega
    · intro bt hbt
      have hc' : ¬ B ≤ batch.length + 1 := by simpa using hc
      simp [recvObs, hc'] at hbt

theorem flushObs_inv (B : Nat) (batch : List α) (hB : 1 ≤ B)
    (h : batch.length < B) :
    (flushObs batch).1.length < B ∧
      ∀ bt, WorkerObs.flushed bt ∈ (flushObs batch).2 → bt.length ≤ B := by
  constructor
  · rw [flushObs_fst]; simpa using hB
  · intro bt hbt
    by_cases h0 : batch.length = 0
    · simp [flushObs, h0] at hbt
    · simp only [flushObs, if_neg h0, List.mem_singleton] at hbt
      cases hbt
      omega

theorem runEvents_inv : ∀ (evs : List (WorkerEvent α)) (B : Nat) (batch : List α),
    1 ≤ B → batch.length < B →
    (runEvents B batch evs).1.length < B ∧
      ∀ bt, WorkerObs.flushed bt ∈ (runEvents B batch evs).2 → bt.length ≤ B := by
  intro evs
  induction evs with
  | nil =>
    intro B batch hB h
    refine ⟨h, ?_⟩
    intro bt hbt
    simp [runEvents, flushedRecords] at hbt
  | cons ev evs ih =>
    intro B batch hB h
    cases ev with
    | recv e =>
      obtain ⟨h1, h2⟩ := recvObs_inv B batch e hB h
      obtain ⟨h3, h4⟩ := ih B (recvObs B batch e).1 hB h1
      refine ⟨by simpa [runEvents] using h3, ?_⟩
      intro bt hbt
      simp only [runEvents, List.mem_append] at hbt
      rcases hbt with hbt | hbt
      · exact h2 bt hbt
      · exact h4 bt hbt
    | tick =>
      obtain ⟨h1, h2⟩ := flushObs_inv B batch hB h
      obtain ⟨h3, h4⟩ := ih B (flushObs batch).1 hB h1
      refine ⟨by simpa [runEvents] using h3, ?_⟩
      intro bt hbt
      simp only [runEvents, List.mem_append] at hbt
      rcases hbt with hbt | hbt
      · exact h2 bt hbt
      · exact h4 bt hbt

theorem drainTrace_le : ∀ (q : List α) (B : Nat) (batch : List α),
    1 ≤ B → batch.length < B →
    ∀ bt, WorkerObs.flushed bt ∈ drainTrace B batch q → bt.length ≤ B := by
  intro q
  induction q with
  | nil =>
    intro B batch hB h bt hbt
    simp only [drainTrace, List.mem_append, List.mem_singleton] at hbt
    rcases hbt with hbt | hbt
    · exact (flushObs_inv B batch hB h).2 bt hbt
    · cases hbt
  | cons e rest ih =>
    intro B batch hB h bt hbt
    obtain ⟨h1, h2⟩ := recvObs_inv B batch e hB h
    simp only [drainTrace, List.mem_append] at hbt
    rcases hbt with hbt | hbt
    · exact h2 bt hbt
    · exact ih B (recvObs B batch e).1 hB h1 bt hbt

end WorkerLemmas

/-! ## Pipeline lemmas -/

section PipelineLemmas

variable {α : Type*}

theorem serveDNSEnqueue_shed (s : PipelineState α) (e : α)
    (h1 : 0 < s.qcap) (h2 : s.qcap * s.dropThresh ≤ s.queue.length * 100) :
    serveDNSEnqueue s e = (s, false) := by
  have hand : 0 < s.qcap ∧ s.qcap * s.dropThresh ≤ s.queue.length * 100 := ⟨h1, h2⟩
  simp only [serveDNSEnqueue, if_pos hand]

theorem serveDNSEnqueue_len (s : PipelineState α) (e : α)
    (h : s.queue.length ≤ s.qcap) :
    (serveDNSEnqueue s e).1.queue.length ≤ s.qcap ∧
      (serveDNSEnqueue s e).1.qcap = s.qcap := by
  simp only [serveDNSEnqueue]
  split_ifs with h1 h2
  · exact ⟨h, rfl⟩
  · constructor
    · simp only [List.length_append, List.length_singleton]
      omega
    · rfl
  · exact ⟨h, rfl⟩

theorem applyQueueOps_le : ∀ (ops : List (QueueOp α)) (s : PipelineState α),
    s.queue.length ≤ s.qcap →
    (applyQueueOps s ops).queue.length ≤ s.qcap ∧
      (applyQueueOps s ops).qcap = s.qcap := by
  intro ops
  induction ops with
  | nil => intro s h; exact ⟨h, rfl⟩
  | cons op ops ih =>
    intro s h
    cases op with
    | enq e =>
      obtain ⟨h1, h2⟩ := serveDNSEnqueue_len s e h
      obtain ⟨h3, h4⟩ := ih (serveDNSEnqueue s e).1 (by rw [h2]; exact h1)
      rw [h2] at h3 h4
      exact ⟨h3, h4⟩
    | deq =>
      have h' : ({ s with queue := s.queue.tail } : PipelineState α).queue.length
          ≤ ({ s with queue := s.queue.tail } : PipelineState α).qcap := by
        have := List.length_tail s.queue
        simp only []
        omega
      obtain ⟨h3, h4⟩ := ih { s with queue := s.queue.tail } h'
      exact ⟨h3, h4⟩

end PipelineLemmas

/-! ## Artifact-key lemmas -/

section KeyLemmas

theorem str_append_left_cancel {a b c : String} (h : a ++ b = a ++ c) : b = c := by
  apply String.ext
  have hd := congrArg String.data h
  rw [String.data_append, String.data_append] at hd
  exact List.append_cancel_left hd

theorem str_append_right_cancel {a b c : String} (h : a ++ c = b ++ c) : a = b := by
  apply String.ext
  have hd := congrArg String.data h
  rw [String.data_append, String.data_append] at hd
  exact List.append_cancel_right hd

theorem str_append_ne_empty (a b : String) (hb : b ≠ "") : a ++ b ≠ "" := by
  intro h
  apply hb
  apply String.ext
  have hd := congrArg String.data h
  rw [String.data_append] at hd
  have h0 : ("" : String).data = [] := rfl
  rw [h0] at hd
  have := (List.append_eq_nil.mp hd).2
  rw [this, h0]

theorem joinClean_cons2 (x : String) (l : List String) (h : l ≠ []) :
    joinClean (x :: l) = x ++ "/" ++ joinClean l := by
  cases l with
  | nil => exact absurd rfl h
  | cons y ys => rfl

theorem joinClean_snoc_inj : ∀ (L : List String) (f1 f2 : String),
    joinClean (L ++ [f1]) = joinClean (L ++ [f2]) → f1 = f2 := by
  intro L
  induction L with
  | nil => intro f1 f2 h; simpa [joinClean] using h
  | cons x L ih =>
    intro f1 f2 h
    rw [List.cons_append, List.cons_append,
      joinClean_cons2 x (L ++ [f1]) (by simp),
      joinClean_cons2 x (L ++ [f2]) (by simp)] at h
    exact ih f1 f2 (str_append_left_cancel h)

theorem goPathJoin_snoc (l : List String) (f : String) (hf : f ≠ "") :
    goPathJoin (l ++ [f])
      = joinClean ((l.filter fun e => !(e == "")) ++ [f]) := by
  unfold goPathJoin
  rw [List.filter_append]
  congr 2
  simp [List.filter_cons, hf]

end KeyLemmas

/-! ## Claim theorems -/

/-- C1: for every sequence of records that are all successfully enqueued (no
shedding) and every batch-size threshold B ≥ 1, once a full drain/shutdown
has completed the concatenation of all batches handed to the Sink equals the
enqueued sequence — every record appears in exactly one handed-off batch, in
order, none duplicated, none lost. This holds both for the channel/worker
pipeline (a full worker run: arbitrary record/ticker wake-ups `evs`, then
the shutdown drain of the residual queue `rest`) and for the shared
`LogBuffer` (a sequence of `Add`s followed by the shutdown `Flush`). -/
theorem C1_no_loss {α : Type*} (B : Nat) (hB : 1 ≤ B)
    (evs : List (WorkerEvent α)) (rest : List α) (m : Nat) (xs : List α) :
    flushedRecords (workerRun B evs rest) = delivered evs ++ rest ∧
    ((runBufOps (NewLogBuffer m) (xs.map BufOp.addOp ++ [BufOp.flushOp])).2).flatten
      = xs := by
  constructor
  · simp only [workerRun]
    rw [flushedRecords_append, drainTrace_records, ← List.append_assoc,
      runEvents_records]
    simp
  · exact bufRun_total m xs

theorem C1_witness :
    1 ≤ 2 ∧
      (flushedRecords (workerRun 2
            [WorkerEvent.recv (1 : Nat), WorkerEvent.tick, WorkerEvent.recv 2] [3, 4])
          = delivered [WorkerEvent.recv (1 : Nat), WorkerEvent.tick, WorkerEvent.recv 2]
              ++ [3, 4] ∧
        ((runBufOps (NewLogBuffer 2 : LogBuffer Nat)
              ([5, 6, 7].map BufOp.addOp ++ [BufOp.flushOp])).2).flatten
          = [5, 6, 7]) :=
  ⟨by decide, C1_no_loss 2 (by decide)
    [WorkerEvent.recv 1, WorkerEvent.tick, WorkerEvent.recv 2] [3, 4] 2 [5, 6, 7]⟩

/-- C2: an enqueue attempt made while the occupancy ratio
`len(queue)/cap` is at or above the shedding threshold (in integers:
`cap * dropThresh ≤ len(queue) * 100`, with `cap > 0`) is always rejected
with the queue unchanged; under any interleaving of enqueue attempts and
worker draws the resident count never exceeds the capacity; and in the
concrete scenario capacity 10, threshold 90%, ten enqueues with no consumer
activity, the first 9 are accepted and the 10th is rejected. -/
theorem C2_shedding {α : Type*} :
    (∀ (s : PipelineState α) (e : α),
        0 < s.qcap → s.qcap * s.dropThresh ≤ s.queue.length * 100 →
        serveDNSEnqueue s e = (s, false)) ∧
    (∀ (s : PipelineState α) (ops : List (QueueOp α)),
        s.queue.length ≤ s.qcap →
        (applyQueueOps s ops).queue.length ≤ s.qcap) ∧
    (enqAll (⟨[], 10, 90, false⟩ : PipelineState Nat) [0, 1, 2, 3, 4, 5, 6, 7, 8, 9]).2
      = [true, true, true, true, true, true, true, true, true, false] := by
  refine ⟨?_, ?_, by decide⟩
  · intro s e h1 h2
    exact serveDNSEnqueue_shed s e h1 h2
  · intro s ops h
    exact (applyQueueOps_le ops s h).1

theorem C2_witness :
    serveDNSEnqueue (⟨[1, 2, 3, 4, 5, 6, 7, 8, 9], 10, 90, false⟩ : PipelineState Nat) 99
      = (⟨[1, 2, 3, 4, 5, 6, 7, 8, 9], 10, 90, false⟩, false) :=
  C2_shedding.1 ⟨[1, 2, 3, 4, 5, 6, 7, 8, 9], 10, 90, false⟩ 99 (by decide) (by decide)

/-- C3: with batch-size threshold B ≥ 1, no batch a worker hands to the Sink
over a complete run ever holds more than B records; a worker whose batch
reaches exactly B records on an append flushes exactly those B records at
once, leaving the accumulator empty before any further record can join the
same batch; the shared `LogBuffer.Add` behaves identically at its
`maxSize` crossing; and no batch emitted by any `LogBuffer` operation
sequence exceeds `maxSize`. -/
theorem C3_size_trigger {α : Type*} (B : Nat) (hB : 1 ≤ B) :
    (∀ (evs : List (WorkerEvent α)) (rest : List α) (bt : List α),
        WorkerObs.flushed bt ∈ workerRun B evs rest → bt.length ≤ B) ∧
    (∀ (batch : List α) (e : α), batch.length + 1 = B →
        recvObs B batch e = ([], [WorkerObs.flushed (batch ++ [e])])) ∧
    (∀ (b : LogBuffer α) (e : α), b.entries.length + 1 = b.maxSize →
        (b.Add e).2 = some (b.entries ++ [e]) ∧ (b.Add e).1.entries = []) ∧
    (∀ (m : Nat) (ops : List (BufOp α)), 1 ≤ m →
        ∀ bt ∈ (runBufOps (NewLogBuffer m) ops).2, bt.length ≤ m) := by
  refine ⟨?_, ?_, ?_, ?_⟩
  · intro evs rest bt hbt
    simp only [workerRun, List.mem_append] at hbt
    have h0 : ([] : List α).length < B := by simpa using hB
    rcases hbt with h | h
    · exact (runEvents_inv evs B [] hB h0).2 bt h
    · exact drainTrace_le rest B _ hB (runEvents_inv evs B [] hB h0).1 bt h
  · intro batch e hlen
    have hc : B ≤ (batch ++ [e]).length := by
      simp only [List.length_append, List.length_singleton]
      omega
    have hne : ¬ (batch ++ [e]).length = 0 := by simp
    simp only [recvObs, if_pos hc, flushObs, if_neg hne]
  · intro b e hlen
    rw [LogBuffer.add_eq_flush b e (by omega)]
    exact ⟨rfl, rfl⟩
  · intro m ops hm bt hbt
    refine runBufOps_out_le ops (NewLogBuffer m) ?_ ?_ bt hbt
    · simpa [NewLogBuffer] using hm
    · simpa [NewLogBuffer] using hm

theorem C3_witness :
    recvObs 2 [(5 : Nat)] 7 = ([], [WorkerObs.flushed [5, 7]]) :=
  ((C3_size_trigger 2 (by decide)).2).1 [5] 7 (by decide)

/-- C4: on the shutdown signal a worker drains the queue non-blockingly,
flushing at each size-trigger crossing, performs one final flush of any
remainder, and only then terminates: the `stopped` observation is always
the last element of the drain trace and occurs after every flush; the drain
conserves all records (`batch ++ queue`); and in the scenario where 5
records are queued, no trigger has fired (batch empty, B > 5), the trace is
exactly one flush of all 5 records followed by termination. -/
theorem C4_shutdown_drain {α : Type*} (B : Nat) (hB : 1 ≤ B) :
    (∀ (q : List α), q.length = 5 → 5 < B →
        drainTrace B [] q = [WorkerObs.flushed q, WorkerObs.stopped]) ∧
    (∀ (batch q : List α), ∃ pre,
        drainTrace B batch q = pre ++ [WorkerObs.stopped] ∧
          WorkerObs.stopped ∉ pre) ∧
    (∀ (batch q : List α), flushedRecords (drainTrace B batch q) = batch ++ q) := by
  refine ⟨?_, ?_, ?_⟩
  · intro q hq hB5
    have h5 : ([] : List α).length + q.length < B := by
      simp only [List.length_nil, Nat.zero_add, hq]
      omega
    rw [drainTrace_small q [] B h5]
    simp only [List.nil_append]
    have hne : ¬ q.length = 0 := by omega
    simp [flushObs, hne]
  · exact fun batch q => drainTrace_last q B batch
  · exact fun batch q => drainTrace_records q B batch

theorem C4_witness :
    drainTrace 1000 ([] : List Nat) [1, 2, 3, 4, 5]
      = [WorkerObs.flushed [1, 2, 3, 4, 5], WorkerObs.stopped] :=
  (C4_shutdown_drain 1000 (by decide)).1 [1, 2, 3, 4, 5] (by decide) (by decide)

/-- C5 counterexample: the claim says that after shutdown has been signaled
every enqueue attempt is rejected, but the code's admission path never
consults the stop signal — after `shutdownSignal` on a default-shaped
pipeline with an empty queue, the very next enqueue attempt is accepted. -/
theorem C5_counterexample :
    (serveDNSEnqueue (shutdownSignal (⟨[], 50000, 90, false⟩ : PipelineState Nat)) 7).2
      = true := by decide

/-- C5 (amended): enqueue attempts after shutdown are NOT rejected by virtue
of the shutdown signal; admission depends only on queue occupancy versus
capacity and shedding threshold, so the accepted/rejected outcome and the
resulting queue after shutdown are identical to those before shutdown. -/
theorem C5_enqueue_ignores_stop {α : Type*} (s : PipelineState α) (e : α) :
    (serveDNSEnqueue (shutdownSignal s) e).2 = (serveDNSEnqueue s e).2 ∧
    (serveDNSEnqueue (shutdownSignal s) e).1.queue = (serveDNSEnqueue s e).1.queue := by
  dsimp only [serveDNSEnqueue, shutdownSignal]
  constructor <;> split_ifs <;> rfl

/-- C6: the `(status, error)` pair `ServeDNS` returns is exactly the pair
produced by the next plugin in the chain, unconditionally — across any two
runs differing only in the logging pipeline's state (record shed versus
enqueued, buffer flush triggered or not) the returned pair is identical;
nothing from the logging pipeline is ever surfaced as a request-handling
error. Proved for both the channel design and the shared-buffer design. -/
theorem C6_status_transparent {α ρ : Type*} (nextResult : ρ) (hasQuestion : Bool)
    (e : α) (s s1 s2 : PipelineState α) (p p1 p2 : BufPipeline α) :
    (serveDNS nextResult hasQuestion e s).1 = nextResult ∧
    (serveDNS nextResult hasQuestion e s1).1 = (serveDNS nextResult hasQuestion e s2).1 ∧
    (serveDNSBuf nextResult hasQuestion e p).1 = nextResult ∧
    (serveDNSBuf nextResult hasQuestion e p1).1
      = (serveDNSBuf nextResult hasQuestion e p2).1 := by
  have hq : ∀ s' : PipelineState α, (serveDNS nextResult hasQuestion e s').1 = nextResult := by
    intro s'
    cases hasQuestion <;> rfl
  have hb : ∀ p' : BufPipeline α, (serveDNSBuf nextResult hasQuestion e p').1 = nextResult := by
    intro p'
    cases hasQuestion with
    | false => rfl
    | true =>
      cases h : (p'.buffer.Add e).2 <;> simp [serveDNSBuf, h]
  exact ⟨hq s, (hq s1).trans (hq s2).symm, hb p, (hb p1).trans (hb p2).symm⟩

/-- C7 counterexample: the claim says every default-initialized pipeline
flushes on a 30-second interval, but `Init` of the worker-pool design
defaults `flushEvery` to `5 * time.Second`, not 30 seconds. -/
theorem C7_counterexample :
    (S3DumperInit ⟨0, 0, 0, 0, 0⟩).flushEveryNs = 5 * secondNs ∧
    (S3DumperInit ⟨0, 0, 0, 0, 0⟩).flushEveryNs ≠ defaultFlushIntervalNs :=
  ⟨rfl, by decide⟩

/-- C7 (amended): the documented defaults hold for batch size 1000, worker
count 4, queue capacity 50,000 and shedding threshold 90%; the default
flush interval, however, is 30 seconds only in `parseConfig` (setup.go,
shared-buffer design) — the worker-pool `Init` defaults it to 5 seconds. -/
theorem C7_defaults :
    S3DumperInit ⟨0, 0, 0, 0, 0⟩
      = ⟨4, 1000, 5 * secondNs, 90, 50000⟩ ∧
    parseTunables none none
      = Except.ok { batchSize := 1000, flushIntervalNs := 30 * secondNs } ∧
    defaultBatchSize = 1000 ∧ defaultFlushIntervalNs = 30 * secondNs :=
  ⟨rfl, rfl, rfl, rfl⟩

/-- C8 counterexample: the claim says a batch-size threshold of 0 or
negative makes setup fail before the pipeline starts, but `parseConfig`
accepts any value `strconv.Atoi` can parse — `batch_size 0` passes setup
successfully. -/
theorem C8_counterexample :
    parseTunables (some "0") none
      = Except.ok { batchSize := 0, flushIntervalNs := defaultFlushIntervalNs } := rfl

/-- C8 (amended): setup rejects `batch_size` only when it fails integer
parsing; the values 0 and negative parse successfully and are accepted into
the configuration with no positivity validation, while a non-numeric value
is the only way to make setup fail. -/
theorem C8_no_validation :
    parseTunables (some "0") none
      = Except.ok { batchSize := 0, flushIntervalNs := defaultFlushIntervalNs } ∧
    parseTunables (some "-10") none
      = Except.ok { batchSize := -10, flushIntervalNs := defaultFlushIntervalNs } ∧
    parseTunables (some "abc") none
      = Except.error "invalid batch_size: invalid syntax" ∧
    parseTunables (some "25") (some 7)
      = Except.ok { batchSize := 25, flushIntervalNs := 7 } :=
  ⟨rfl, rfl, rfl, rfl⟩

/-- C9: artifact identifiers never collide even within the same instant:
for two persist invocations with identical prefix, formatted date and
nanosecond timestamp but distinct random identifiers, `generateS3Key`
produces distinct keys and `generateFilename` produces distinct filenames;
and with non-empty components the S3 key has exactly the time-partitioned
form `prefix/year/month/day/{nanosecond-timestamp}-{random-id}.parquet`. -/
theorem C9_unique_artifacts (k1 k2 : S3KeyInputs)
    (hp : k1.prefixDir = k2.prefixDir) (hy : k1.year = k2.year)
    (hm : k1.month = k2.month) (hd : k1.day = k2.day)
    (ht : k1.unixNano = k2.unixNano) (hu : k1.uuidStr ≠ k2.uuidStr) :
    generateS3Key k1 ≠ generateS3Key k2 ∧
    generateFilename k1.unixNano k1.uuidStr
      ≠ generateFilename k2.unixNano k2.uuidStr ∧
    (k1.prefixDir ≠ "" → k1.year ≠ "" → k1.month ≠ "" → k1.day ≠ "" →
      generateS3Key k1
        = k1.prefixDir ++ "/" ++ k1.year ++ "/" ++ k1.month ++ "/" ++ k1.day ++ "/"
          ++ toString k1.unixNano ++ "-" ++ k1.uuidStr ++ ".parquet") := by
  obtain ⟨p1, y1, m1, d1, t1, u1⟩ := k1
  obtain ⟨p2, y2, m2, d2, t2, u2⟩ := k2
  simp only at hp hy hm hd ht hu ⊢
  subst hp
  subst hy
  subst hm
  subst hd
  subst ht
  have hq : (".parquet" : String) ≠ "" := by decide
  refine ⟨?_, ?_, ?_⟩
  · intro h
    apply hu
    unfold generateS3Key at h
    simp only at h
    have hl : ∀ u : String, ([p1, y1, m1, d1, toString t1 ++ "-" ++ u ++ ".parquet"] : List String)
        = [p1, y1, m1, d1] ++ [toString t1 ++ "-" ++ u ++ ".parquet"] := fun u => rfl
    rw [hl u1, hl u2, goPathJoin_snoc _ _ (str_append_ne_empty _ _ hq),
      goPathJoin_snoc _ _ (str_append_ne_empty _ _ hq)] at h
    have h1 := joinClean_snoc_inj _ _ _ h
    have h2 := str_append_right_cancel h1
    exact str_append_left_cancel h2
  · intro h
    apply hu
    unfold generateFilename at h
    have h2 := str_append_right_cancel h
    exact str_append_left_cancel h2
  · intro hp0 hy0 hm0 hd0
    unfold generateS3Key goPathJoin
    simp only
    have hf : (toString t1 ++ "-" ++ u1 ++ ".parquet") ≠ "" :=
      str_append_ne_empty _ _ hq
    rw [show (List.filter (fun e => !(e == ""))
        [p1, y1, m1, d1, toString t1 ++ "-" ++ u1 ++ ".parquet"])
        = [p1, y1, m1, d1, toString t1 ++ "-" ++ u1 ++ ".parquet"] from by
      simp [List.filter_cons, hp0, hy0, hm0, hd0, hf]]
    apply String.ext
    simp [joinClean, String.data_append, List.append_assoc]

theorem C9_witness :
    generateS3Key ⟨"logs", "2026", "10", "11", 123, "aaa"⟩
      ≠ generateS3Key ⟨"logs", "2026", "10", "11", 123, "bbb"⟩ ∧
    generateS3Key ⟨"logs", "2026", "10", "11", 123, "aaa"⟩
      = "logs/2026/10/11/123-aaa.parquet" := by
  have h := C9_unique_artifacts ⟨"logs", "2026", "10", "11", 123, "aaa"⟩
    ⟨"logs", "2026", "10", "11", 123, "bbb"⟩ rfl rfl rfl rfl rfl (by decide)
  exact ⟨h.1, by decide⟩

/-- C10: for every `LogBuffer` with `maxSize ≥ 1` and every sequence of
`Add`/`Flush` operations, the resident count stays strictly below
`maxSize` after every operation; `Add` never drops its entry (the appended
sequence is preserved exactly across the return value and the residual
buffer); `Add` returns `nil` exactly when the post-append count is
strictly below `maxSize`, and otherwise returns all accumulated entries in
arrival order leaving the buffer empty; and `Flush` on an empty buffer
returns `nil` rather than an empty batch. -/
theorem C10_buffer_invariants {α : Type*} (m : Nat) (hm : 1 ≤ m) :
    (∀ ops : List (BufOp α),
        (runBufOps (NewLogBuffer m) ops).1.entries.length < m) ∧
    (∀ (b : LogBuffer α) (e : α),
        (b.Add e).2 = none ↔ b.entries.length + 1 < b.maxSize) ∧
    (∀ (b : LogBuffer α) (e : α),
        ((b.Add e).2.getD []) ++ (b.Add e).1.entries = b.entries ++ [e]) ∧
    (∀ (b : LogBuffer α) (e : α), b.maxSize ≤ b.entries.length + 1 →
        b.Add e = ({ b with entries := [] }, some (b.entries ++ [e]))) ∧
    (∀ b : LogBuffer α, b.entries = [] → (b.Flush).2 = none) := by
  refine ⟨?_, ?_, ?_, ?_, ?_⟩
  · intro ops
    refine runBufOps_entries_lt ops (NewLogBuffer m) ?_ ?_
    · simpa [NewLogBuffer] using hm
    · simpa [NewLogBuffer] using hm
  · exact fun b e => LogBuffer.add_none_iff b e
  · exact fun b e => LogBuffer.add_conserve b e
  · exact fun b e h => LogBuffer.add_eq_flush b e h
  · intro b hb
    simp [LogBuffer.Flush, LogBuffer.resetAndReturn, hb]

theorem C10_witness :
    (runBufOps (NewLogBuffer 3 : LogBuffer Nat) [BufOp.addOp 1, BufOp.addOp 2]).1.entries.length
      < 3 :=
  (C10_buffer_invariants 3 (by decide)).1 [BufOp.addOp 1, BufOp.addOp 2]
